import Mathlib

/-!
Shallow embedding of `simple_mdns_client` (src/src/lib.rs) and proofs about it.

Modelling conventions:
* `Instant` timestamps are natural numbers counting seconds; `elapsed()` at
  time `now` is the truncated subtraction `now - last_seen_time`, matching the
  non-negative `Duration` returned by `Instant::elapsed`.
* `HashMap<Service, ServiceRecord>` is an association list; `HashSet<Ipv4Addr>`
  is a duplicate-free list maintained by insert-if-absent.
* Rust strings are modelled by `String`; the byte view used by the DNS name
  encoder identifies a string's bytes with its characters' code points, which
  is exact for the ASCII names mDNS service discovery uses.
* `handle_response` takes the parsed packet (the fields `dns_parser` hands the
  code: the header's query flag and the answer records) together with the
  current clock reading `now`; in the Rust code each upsert reads
  `Instant::now()` inside one call, here the whole call shares one reading.
-/

namespace SimpleMdns

/-- An IPv4 address as four octets (`std::net::Ipv4Addr`). -/
structure Ipv4 where
  o1 : Nat
  o2 : Nat
  o3 : Nat
  o4 : Nat
deriving DecidableEq

/-- The `Service` key from lib.rs: host string plus 16-bit port. -/
structure Service where
  host : String
  port : Nat
deriving DecidableEq

/-- The `ServiceRecord` value from lib.rs: last-seen time and address set. -/
structure ServiceRecord where
  last_seen_time : Nat
  addresses : List Ipv4
deriving DecidableEq

/-- The registry `HashMap<Service, ServiceRecord>` as an association list. -/
abbrev Registry := List (Service × ServiceRecord)

/-- Lookup of a key's record, the read half of the `HashMap` interface. -/
def findKey (db : Registry) (k : Service) : Option ServiceRecord :=
  (db.find? (fun e => decide (e.1 = k))).map Prod.snd

/-- `HashMap::contains_key`, expressed through `findKey`. -/
def hasKey (db : Registry) (k : Service) : Bool :=
  (findKey db k).isSome

/-- `HashSet::insert` on the address set: add the address if absent. -/
def insertAddr (x : Ipv4) (s : List Ipv4) : List Ipv4 :=
  if x ∈ s then s else s ++ [x]

/-- The upsert in `handle_response` (lib.rs:132-138):
`database.entry(service).and_modify(|e| e.last_seen_time = Instant::now())
 .or_insert_with(|| ServiceRecord { last_seen_time: Instant::now(),
                                    addresses: HashSet::new() })`. -/
def upsertService (now : Nat) (db : Registry) (k : Service) : Registry :=
  if hasKey db k then
    db.map (fun e => if e.1 = k then (e.1, { e.2 with last_seen_time := now }) else e)
  else
    db ++ [(k, { last_seen_time := now, addresses := [] })]

/-- The record data variants `handle_response` inspects: `RData::SRV`
(priority, weight, port, target), `RData::A`, and everything else. -/
inductive RData where
  | srv (priority : Nat) (weight : Nat) (port : Nat) (target : String) : RData
  | a (addr : Ipv4) : RData
  | other : RData
deriving DecidableEq

/-- An answer record as read by `handle_response`: its name and data. -/
structure ResourceRecord where
  name : String
  data : RData
deriving DecidableEq

/-- A parsed packet as read by `handle_response`: the header's query flag and
the answer records. -/
structure Packet where
  query : Bool
  answers : List ResourceRecord
deriving DecidableEq

/-- Substring containment, `str::contains(&str)`: the pattern occurs
contiguously at some offset of `s`. -/
def strContains (s pat : String) : Bool :=
  (List.range (s.toList.length + 1)).any fun i =>
    decide (pat.toList = (s.toList.drop i).take pat.toList.length)

/-- One iteration of the first loop of `handle_response` (lib.rs:119-141):
an SRV answer whose name contains the target service name is upserted as
`Service { host: target, port }`; other answers are skipped. -/
def srvStep (service : String) (now : Nat) (db : Registry) (a : ResourceRecord) : Registry :=
  match a.data with
  | RData.srv _ _ port target =>
      if strContains a.name service then upsertService now db ⟨target, port⟩ else db
  | _ => db

/-- One iteration of the second loop of `handle_response` (lib.rs:143-156):
for an A answer, every entry whose key's host equals the answer's name gets
the address inserted into its address set; other answers are skipped. -/
def aStep (db : Registry) (a : ResourceRecord) : Registry :=
  match a.data with
  | RData.a addr =>
      db.map (fun e =>
        if e.1.host = a.name then
          (e.1, { e.2 with addresses := insertAddr addr e.2.addresses })
        else e)
  | _ => db

/-- `handle_response` (lib.rs:108-157): queries are discarded; otherwise the
SRV loop runs over all answers, then the A loop runs over all answers. -/
def handle_response (service : String) (now : Nat) (db : Registry) (p : Packet) : Registry :=
  if p.query then db
  else p.answers.foldl aStep (p.answers.foldl (srvStep service now) db)

/-- `remove_old_entries` (lib.rs:175-178):
`database.retain(|_, v| v.last_seen_time.elapsed() < Duration::from_secs(5))`. -/
def remove_old_entries (now : Nat) (db : Registry) : Registry :=
  db.filter (fun e => decide (now - e.2.last_seen_time < 5))

/-- Whether an answer record is an SRV record that `handle_response` would
upsert as exactly the key `k`: it carries SRV data whose name contains the
target service name and whose target/port derive `k`. -/
def answerDerives (service : String) (k : Service) (a : ResourceRecord) : Bool :=
  match a.data with
  | RData.srv _ _ port target => strContains a.name service && decide (k = ⟨target, port⟩)
  | _ => false

/-- Whether processing packet `p` upserts the key `k`: the packet is a
response and some answer derives `k`. -/
def packetUpserts (service : String) (k : Service) (p : Packet) : Bool :=
  !p.query && p.answers.any (answerDerives service k)

/-- One polling cycle of the discovery loop (lib.rs:246-258): the responses
drained this cycle, each tagged with the clock reading at which
`handle_response` processed it, followed by the clock reading at which
`remove_old_entries` runs. -/
structure Cycle where
  events : List (Nat × Packet)
  evict_time : Nat

/-- Run one polling cycle: process every drained response, then evict. -/
def runCycle (service : String) (db : Registry) (c : Cycle) : Registry :=
  remove_old_entries c.evict_time
    (c.events.foldl (fun d e => handle_response service e.1 d e.2) db)

/-- Run the discovery loop for a whole list of polling cycles. -/
def runCycles (service : String) (db : Registry) (cs : List Cycle) : Registry :=
  cs.foldl (runCycle service) db

/-- The byte view of a Rust string (code points; exact for ASCII). -/
def strBytes (s : String) : List Nat := s.toList.map Char.toNat

/-- `str::split('.')` on the byte view: split at every byte 46 (`'.'`). -/
def splitDot : List Nat → List (List Nat)
  | [] => [[]]
  | b :: rest =>
    match splitDot rest with
    | [] => [[]]
    | l :: ls => if b = 46 then [] :: l :: ls else (b :: l) :: ls

/-- `encode_dns_name` (lib.rs:60-68): for each dot-separated part push its
length as a byte (`part.len() as u8`, i.e. mod 256) followed by the part's
bytes, then push a terminating zero byte. -/
def encode_dns_name (name : String) : List Nat :=
  ((splitDot (strBytes name)).foldl
    (fun bytes part => bytes ++ (part.length % 256) :: part) []) ++ [0]

/-- The `DnsHeader` struct from lib.rs. -/
structure DnsHeader where
  id : Nat
  flags : Nat
  num_questions : Nat
  num_answers : Nat
  num_authorities : Nat
  num_additionals : Nat

/-- `DnsHeader::new_query()`: id 0, flags `OPCODE_QUERY = 0`, one question,
no answers, authorities or additionals. -/
def DnsHeader.new_query : DnsHeader :=
  { id := 0, flags := 0, num_questions := 1, num_answers := 0,
    num_authorities := 0, num_additionals := 0 }

/-- `u16::to_be_bytes`: the two big-endian bytes of a 16-bit value. -/
def u16be (n : Nat) : List Nat := [n / 256 % 256, n % 256]

/-- `DnsHeader::to_bytes`: the six fields serialized big-endian. -/
def DnsHeader.to_bytes (h : DnsHeader) : List Nat :=
  u16be h.id ++ u16be h.flags ++ u16be h.num_questions ++ u16be h.num_answers ++
    u16be h.num_authorities ++ u16be h.num_additionals

/-- The datagram built by `send_mdns_query` (lib.rs:85-106) before it is
handed to the socket: header, encoded name, QTYPE `PTR = 12`, QCLASS `1`. -/
def query_packet (service_name : String) : List Nat :=
  DnsHeader.new_query.to_bytes ++ encode_dns_name service_name ++
    u16be 12 ++ u16be 1

/-- Read the big-endian 16-bit field at byte offset `i` of a datagram. -/
def decodeU16 (bytes : List Nat) (i : Nat) : Nat :=
  256 * bytes.getD i 0 + bytes.getD (i + 1) 0

/-- The address set carried by an optional record; an absent record
contributes the empty set. -/
def addrsOf : Option ServiceRecord → List Ipv4
  | some r => r.addresses
  | none => []

theorem findKey_nil (k : Service) : findKey [] k = none := rfl

theorem findKey_cons (e : Service × ServiceRecord) (db : Registry) (k : Service) :
    findKey (e :: db) k = if e.1 = k then some e.2 else findKey db k := by
  unfold findKey
  by_cases h : e.1 = k
  · rw [List.find?_cons_of_pos _ (by simpa using h), if_pos h]
    rfl
  · rw [List.find?_cons_of_neg _ (by simpa using h), if_neg h]

theorem findKey_append (db₁ db₂ : Registry) (k : Service) :
    findKey (db₁ ++ db₂) k = (findKey db₁ k).or (findKey db₂ k) := by
  induction db₁ with
  | nil => simp [findKey_nil, Option.or]
  | cons e db ih =>
      rw [List.cons_append, findKey_cons, findKey_cons]
      by_cases h : e.1 = k <;> simp [h, ih, Option.or]

theorem findKey_map (f : Service × ServiceRecord → Service × ServiceRecord)
    (hf : ∀ e, (f e).1 = e.1) (db : Registry) (k : Service) :
    findKey (db.map f) k = (findKey db k).map (fun r => (f (k, r)).2) := by
  induction db with
  | nil => simp [findKey_nil]
  | cons e db ih =>
      rw [List.map_cons, findKey_cons, findKey_cons]
      by_cases h : e.1 = k
      · rw [if_pos (by rw [hf]; exact h), if_pos h]
        have he : f e = f (k, e.2) := by rw [← h]
        rw [he, Option.map_some']
      · rw [if_neg (by rw [hf]; exact h), if_neg h, ih]

theorem findKey_upsert_self (now : Nat) (db : Registry) (k : Service) :
    findKey (upsertService now db k) k = some ⟨now, addrsOf (findKey db k)⟩ := by
  unfold upsertService hasKey
  cases h : findKey db k with
  | none =>
      rw [if_neg (by simp [h]), findKey_append, h, findKey_cons, if_pos rfl]
      rfl
  | some r =>
      rw [if_pos (by simp [h]), findKey_map _ (fun e => by dsimp only; split <;> rfl), h]
      simp [addrsOf]

theorem findKey_upsert_other (now : Nat) (db : Registry) (k k2 : Service)
    (hne : k2 ≠ k) :
    findKey (upsertService now db k) k2 = findKey db k2 := by
  unfold upsertService hasKey
  split
  · rw [findKey_map _ (fun e => by dsimp only; split <;> rfl)]
    cases findKey db k2 <;> simp [hne]
  · rw [findKey_append, findKey_cons, if_neg (fun h => hne h.symm), findKey_nil]
    cases findKey db k2 <;> rfl

theorem findKey_srvStep (service : String) (now : Nat) (db : Registry)
    (a : ResourceRecord) (k : Service) :
    findKey (srvStep service now db a) k =
      if answerDerives service k a then some ⟨now, addrsOf (findKey db k)⟩
      else findKey db k := by
  unfold srvStep answerDerives
  rcases a with ⟨name, data⟩
  cases data with
  | srv pr w port target =>
      dsimp only
      by_cases hc : strContains name service = true
      · by_cases hk : k = (⟨target, port⟩ : Service)
        · subst hk
          simp [hc, findKey_upsert_self]
        · simp [hc, hk, findKey_upsert_other now db _ k hk]
      · simp [hc]
  | a addr => simp
  | other => simp

theorem findKey_srvFold (service : String) (now : Nat) (answers : List ResourceRecord)
    (db : Registry) (k : Service) :
    findKey (answers.foldl (srvStep service now) db) k =
      if answers.any (answerDerives service k) then some ⟨now, addrsOf (findKey db k)⟩
      else findKey db k := by
  induction answers generalizing db with
  | nil => simp
  | cons a rest ih =>
      rw [List.foldl_cons, ih, List.any_cons]
      by_cases ha : answerDerives service k a = true
      · by_cases hr : rest.any (answerDerives service k) = true <;>
          simp [ha, hr, findKey_srvStep, addrsOf]
      · by_cases hr : rest.any (answerDerives service k) = true <;>
          simp [ha, hr, findKey_srvStep]

/-- The effect of one A-loop iteration on the record stored under `k`. -/
def aApply (a : ResourceRecord) (k : Service) (r : ServiceRecord) : ServiceRecord :=
  match a.data with
  | RData.a addr =>
      if k.host = a.name then { r with addresses := insertAddr addr r.addresses } else r
  | _ => r

theorem aApply_last (a : ResourceRecord) (k : Service) (r : ServiceRecord) :
    (aApply a k r).last_seen_time = r.last_seen_time := by
  unfold aApply
  rcases a with ⟨name, data⟩
  cases data with
  | srv pr w port target => rfl
  | a addr => dsimp only; split <;> rfl
  | other => rfl

theorem findKey_aStep (db : Registry) (a : ResourceRecord) (k : Service) :
    findKey (aStep db a) k = (findKey db k).map (aApply a k) := by
  unfold aStep aApply
  rcases a with ⟨name, data⟩
  cases data with
  | srv pr w port target => cases findKey db k <;> rfl
  | a addr =>
      dsimp only
      rw [findKey_map _ (fun e => by split <;> rfl)]
      cases findKey db k with
      | none => rfl
      | some r => dsimp only [Option.map_some']; split <;> rfl
  | other => cases findKey db k <;> rfl

theorem findKey_aFold (answers : List ResourceRecord) (db : Registry) (k : Service) :
    ∃ f : ServiceRecord → ServiceRecord,
      (∀ r, (f r).last_seen_time = r.last_seen_time) ∧
      findKey (answers.foldl aStep db) k = (findKey db k).map f := by
  induction answers generalizing db with
  | nil =>
      refine ⟨id, fun r => rfl, ?_⟩
      rw [List.foldl_nil]
      cases findKey db k <;> rfl
  | cons a rest ih =>
      obtain ⟨f, hf, heq⟩ := ih (aStep db a)
      refine ⟨fun r => f (aApply a k r), fun r => (hf _).trans (aApply_last a k r), ?_⟩
      rw [List.foldl_cons, heq, findKey_aStep, Option.map_map]
      rfl

theorem handle_response_upserted (service : String) (now : Nat) (db : Registry)
    (p : Packet) (k : Service) (h : packetUpserts service k p = true) :
    ∃ r, findKey (handle_response service now db p) k = some r ∧
      r.last_seen_time = now := by
  unfold packetUpserts at h
  rw [Bool.and_eq_true, Bool.not_eq_true'] at h
  obtain ⟨hq, ha⟩ := h
  unfold handle_response
  rw [hq]
  obtain ⟨f, hf, heq⟩ := findKey_aFold p.answers (p.answers.foldl (srvStep service now) db) k
  rw [if_neg (by simp), heq, findKey_srvFold, if_pos ha, Option.map_some']
  exact ⟨f ⟨now, addrsOf (findKey db k)⟩, rfl, hf _⟩

theorem handle_response_last (service : String) (now : Nat) (db : Registry)
    (p : Packet) (k : Service) (r : ServiceRecord) (h : findKey db k = some r) :
    ∃ r2, findKey (handle_response service now db p) k = some r2 ∧
      (r2.last_seen_time = r.last_seen_time ∨ r2.last_seen_time = now) := by
  unfold handle_response
  cases hq : p.query with
  | true =>
      rw [if_pos (by simp)]
      exact ⟨r, h, Or.inl rfl⟩
  | false =>
      rw [if_neg (by simp)]
      obtain ⟨f, hf, heq⟩ :=
        findKey_aFold p.answers (p.answers.foldl (srvStep service now) db) k
      rw [heq, findKey_srvFold]
      by_cases ha : p.answers.any (answerDerives service k) = true
      · rw [if_pos ha, Option.map_some']
        exact ⟨f ⟨now, addrsOf (findKey db k)⟩, rfl, Or.inr (hf _)⟩
      · rw [if_neg ha, h, Option.map_some']
        exact ⟨f r, rfl, Or.inl (hf r)⟩

theorem hasKey_handle_response (service : String) (now : Nat) (db : Registry)
    (p : Packet) (k : Service)
    (h : hasKey (handle_response service now db p) k = true) :
    hasKey db k = true ∨ p.answers.any (answerDerives service k) = true := by
  unfold handle_response at h
  cases hq : p.query with
  | true =>
      rw [hq, if_pos (by simp)] at h
      exact Or.inl h
  | false =>
      rw [hq, if_neg (by simp)] at h
      unfold hasKey at h ⊢
      obtain ⟨f, hf, heq⟩ :=
        findKey_aFold p.answers (p.answers.foldl (srvStep service now) db) k
      rw [heq, findKey_srvFold] at h
      by_cases ha : p.answers.any (answerDerives service k) = true
      · exact Or.inr ha
      · rw [if_neg ha] at h
        rw [Option.isSome_map'] at h
        exact Or.inl h

theorem findKey_filter (q : Service × ServiceRecord → Bool) (db : Registry)
    (k : Service) (r : ServiceRecord) (h : findKey db k = some r)
    (hq : q (k, r) = true) :
    findKey (db.filter q) k = some r := by
  induction db with
  | nil => simp [findKey_nil] at h
  | cons e db ih =>
      rw [findKey_cons] at h
      by_cases hk : e.1 = k
      · rw [if_pos hk] at h
        have h2 : e.2 = r := by injection h
        have he : e = (k, r) := by
          obtain ⟨e1, e2⟩ := e
          dsimp only at hk h2
          rw [hk, h2]
        rw [List.filter_cons, he, if_pos hq, findKey_cons, if_pos rfl]
      · rw [if_neg hk] at h
        rw [List.filter_cons]
        split
        · rw [findKey_cons, if_neg hk]
          exact ih h
        · exact ih h

theorem findKey_remove_old (now : Nat) (db : Registry) (k : Service)
    (r : ServiceRecord) (h : findKey db k = some r)
    (hr : now - r.last_seen_time < 5) :
    findKey (remove_old_entries now db) k = some r :=
  findKey_filter _ db k r h (by simpa using hr)

theorem map_self {α : Type} (f : α → α) (l : List α) (h : ∀ e ∈ l, f e = e) :
    l.map f = l := by
  induction l with
  | nil => rfl
  | cons e t ih =>
      rw [List.map_cons, h e (List.mem_cons_self _ _),
        ih (fun x hx => h x (List.mem_cons_of_mem _ hx))]

theorem aStep_noop (db : Registry) (a : ResourceRecord)
    (h : ∀ e ∈ db, e.1.host ≠ a.name) : aStep db a = db := by
  unfold aStep
  rcases a with ⟨name, data⟩
  cases data with
  | srv pr w port target => rfl
  | a addr =>
      dsimp only
      exact map_self _ db (fun e he => by rw [if_neg (h e he)])
  | other => rfl

theorem srvStep_of_a (service : String) (now : Nat) (d : Registry)
    (a : ResourceRecord) (addr : Ipv4) (hA : a.data = RData.a addr) :
    srvStep service now d a = d := by
  unfold srvStep
  rw [hA]

theorem hosts_ne_map (n : String) (f : Service × ServiceRecord → Service × ServiceRecord)
    (hf : ∀ e, (f e).1 = e.1) (d : Registry) (h : ∀ e ∈ d, e.1.host ≠ n) :
    ∀ e ∈ d.map f, e.1.host ≠ n := by
  intro e he
  obtain ⟨e0, he0, rfl⟩ := List.mem_map.mp he
  rw [hf]
  exact h e0 he0

theorem hosts_ne_upsert (n : String) (now : Nat) (d : Registry) (k : Service)
    (h : ∀ e ∈ d, e.1.host ≠ n) (hk : k.host ≠ n) :
    ∀ e ∈ upsertService now d k, e.1.host ≠ n := by
  intro e he
  unfold upsertService at he
  split at he
  · exact hosts_ne_map n _ (fun e => by dsimp only; split <;> rfl) d h e he
  · rcases List.mem_append.mp he with hd | hs
    · exact h e hd
    · rw [List.mem_singleton.mp hs]
      exact hk

theorem hosts_ne_srvStep (service n : String) (now : Nat) (d : Registry)
    (a2 : ResourceRecord) (h : ∀ e ∈ d, e.1.host ≠ n)
    (hs : ∀ pr w port target, a2.data = RData.srv pr w port target →
      strContains a2.name service = true → target ≠ n) :
    ∀ e ∈ srvStep service now d a2, e.1.host ≠ n := by
  unfold srvStep
  rcases a2 with ⟨name, data⟩
  cases data with
  | srv pr w port target =>
      dsimp only
      by_cases hc : strContains name service = true
      · rw [if_pos hc]
        exact hosts_ne_upsert n now d ⟨target, port⟩ h (hs pr w port target rfl hc)
      · rw [if_neg hc]
        exact h
  | a addr => exact h
  | other => exact h

theorem hosts_ne_srvFold (service n : String) (now : Nat) :
    ∀ (answers : List ResourceRecord) (d : Registry),
      (∀ e ∈ d, e.1.host ≠ n) →
      (∀ a2 ∈ answers, ∀ pr w port target, a2.data = RData.srv pr w port target →
        strContains a2.name service = true → target ≠ n) →
      ∀ e ∈ answers.foldl (srvStep service now) d, e.1.host ≠ n := by
  intro answers
  induction answers with
  | nil => intro d h _; exact h
  | cons a2 rest ih =>
      intro d h hs
      rw [List.foldl_cons]
      exact ih _
        (hosts_ne_srvStep service n now d a2 h
          (hs a2 (List.mem_cons_self _ _)))
        (fun x hx => hs x (List.mem_cons_of_mem _ hx))

theorem hosts_ne_aStep (n : String) (d : Registry) (a2 : ResourceRecord)
    (h : ∀ e ∈ d, e.1.host ≠ n) : ∀ e ∈ aStep d a2, e.1.host ≠ n := by
  unfold aStep
  rcases a2 with ⟨name, data⟩
  cases data with
  | srv pr w port target => exact h
  | a addr =>
      exact hosts_ne_map n _ (fun e => by dsimp only; split <;> rfl) d h
  | other => exact h

theorem hosts_ne_aFold (n : String) :
    ∀ (answers : List ResourceRecord) (d : Registry),
      (∀ e ∈ d, e.1.host ≠ n) →
      ∀ e ∈ answers.foldl aStep d, e.1.host ≠ n := by
  intro answers
  induction answers with
  | nil => intro d h; exact h
  | cons a2 rest ih =>
      intro d h
      rw [List.foldl_cons]
      exact ih _ (hosts_ne_aStep n d a2 h)

/-- Liveness invariant for C9: `k` is present and its record is fresh enough
to survive an eviction pass running at time `T`. -/
def goodAt (T : Nat) (db : Registry) (k : Service) : Prop :=
  ∃ r, findKey db k = some r ∧ T < r.last_seen_time + 5

theorem goodAt_handle (service : String) (T now : Nat) (db : Registry) (p : Packet)
    (k : Service) (hT : T < now + 5) (hg : goodAt T db k) :
    goodAt T (handle_response service now db p) k := by
  obtain ⟨r, hr, hb⟩ := hg
  obtain ⟨r2, h2, hor⟩ := handle_response_last service now db p k r hr
  refine ⟨r2, h2, ?_⟩
  cases hor with
  | inl h => omega
  | inr h => omega

theorem goodAt_handle_upsert (service : String) (T now : Nat) (db : Registry)
    (p : Packet) (k : Service) (hT : T < now + 5)
    (hu : packetUpserts service k p = true) :
    goodAt T (handle_response service now db p) k := by
  obtain ⟨r, hr, hlast⟩ := handle_response_upserted service now db p k hu
  exact ⟨r, hr, by omega⟩

theorem goodAt_fold (service : String) (T : Nat) (k : Service) :
    ∀ (events : List (Nat × Packet)) (db : Registry),
      (∀ e ∈ events, T < e.1 + 5) → goodAt T db k →
      goodAt T (events.foldl (fun d e => handle_response service e.1 d e.2) db) k := by
  intro events
  induction events with
  | nil => intro db _ hg; exact hg
  | cons e rest ih =>
      intro db h hg
      rw [List.foldl_cons]
      exact ih _ (fun x hx => h x (List.mem_cons_of_mem _ hx))
        (goodAt_handle service T e.1 db e.2 k (h e (List.mem_cons_self _ _)) hg)

theorem goodAt_fold_upsert (service : String) (T : Nat) (k : Service) :
    ∀ (events : List (Nat × Packet)) (db : Registry),
      (∀ e ∈ events, T < e.1 + 5) →
      (∃ e ∈ events, packetUpserts service k e.2 = true) →
      goodAt T (events.foldl (fun d e => handle_response service e.1 d e.2) db) k := by
  intro events
  induction events with
  | nil =>
      intro db _ hex
      obtain ⟨e, he, _⟩ := hex
      exact absurd he (List.not_mem_nil e)
  | cons e rest ih =>
      intro db h hex
      rw [List.foldl_cons]
      obtain ⟨e2, he2, hu⟩ := hex
      rcases List.mem_cons.mp he2 with rfl | hmem
      · exact goodAt_fold service T k rest _
          (fun x hx => h x (List.mem_cons_of_mem _ hx))
          (goodAt_handle_upsert service T e2.1 db e2.2 k
            (h e2 (List.mem_cons_self _ _)) hu)
      · exact ih _ (fun x hx => h x (List.mem_cons_of_mem _ hx)) ⟨e2, hmem, hu⟩

theorem runCycle_keeps (service : String) (k : Service) (db : Registry) (c : Cycle)
    (hT : ∀ e ∈ c.events, c.evict_time < e.1 + 5)
    (hu : ∃ e ∈ c.events, packetUpserts service k e.2 = true) :
    hasKey (runCycle service db c) k = true := by
  obtain ⟨r, hr, hb⟩ := goodAt_fold_upsert service c.evict_time k c.events db hT hu
  unfold runCycle hasKey
  rw [findKey_remove_old c.evict_time _ k r hr (by omega)]
  rfl

/-- C1: processing a single response packet with an SRV answer
(name `Printer._http._tcp.local`, target `printer1.local`, port 631) and an
A answer (name `printer1.local`, addr 192.168.1.50), starting from the empty
registry with that target service name, yields exactly one entry:
`Service { host := "printer1.local", port := 631 }` with address set
exactly `{192.168.1.50}`. -/
theorem handle_response_printer_end_to_end (now : Nat) :
    handle_response "Printer._http._tcp.local" now []
      { query := false,
        answers :=
          [{ name := "Printer._http._tcp.local",
             data := RData.srv 0 0 631 "printer1.local" },
           { name := "printer1.local", data := RData.a ⟨192, 168, 1, 50⟩ }] } =
      [(⟨"printer1.local", 631⟩, ⟨now, [⟨192, 168, 1, 50⟩]⟩)] := by
  rfl

/-- C2: one eviction pass at time `now` keeps exactly the entries with
`now - last_seen_time < 5` and removes (from the map itself) exactly those
with `now - last_seen_time >= 5`. -/
theorem remove_old_entries_mem_iff (now : Nat) (db : Registry) (k : Service)
    (r : ServiceRecord) :
    (k, r) ∈ remove_old_entries now db ↔
      (k, r) ∈ db ∧ now - r.last_seen_time < 5 := by
  simp [remove_old_entries, List.mem_filter]

/-- C3: across an upsert (any response processing step), an entry's
`last_seen_time` never decreases, assuming the clock is monotone (the stored
timestamp is no later than the current reading `now`). -/
theorem last_seen_monotone (service : String) (now : Nat) (db : Registry)
    (p : Packet) (k : Service) (r r2 : ServiceRecord)
    (hclock : r.last_seen_time ≤ now)
    (hbefore : findKey db k = some r)
    (hafter : findKey (handle_response service now db p) k = some r2) :
    r.last_seen_time ≤ r2.last_seen_time := by
  obtain ⟨r3, h3, hor⟩ := handle_response_last service now db p k r hbefore
  rw [hafter] at h3
  injection h3 with h3
  subst h3
  cases hor with
  | inl h => omega
  | inr h => omega

/-- Witness for C3 at a concrete refresh: an entry last seen at 3 is upserted
at time 5, and its timestamp does not decrease. -/
theorem last_seen_monotone_witness :
    (⟨3, []⟩ : ServiceRecord).last_seen_time ≤
      (⟨5, []⟩ : ServiceRecord).last_seen_time :=
  last_seen_monotone "Svc._tcp.local" 5 [(⟨"h", 8⟩, ⟨3, []⟩)]
    ⟨false, [⟨"Svc._tcp.local", RData.srv 0 0 8 "h"⟩]⟩ ⟨"h", 8⟩ ⟨3, []⟩ ⟨5, []⟩
    (by decide) (by rfl) (by rfl)

/-- C4: a packet whose header query flag is set is discarded; the registry
after `handle_response` equals the registry before. -/
theorem handle_response_query_noop (service : String) (now : Nat) (db : Registry)
    (p : Packet) (h : p.query = true) :
    handle_response service now db p = db := by
  simp [handle_response, h]

/-- Witness for C4: a query packet that even carries a matching SRV answer
leaves the registry untouched. -/
theorem handle_response_query_noop_witness :
    handle_response "Printer._http._tcp.local" 0 []
      { query := true,
        answers :=
          [{ name := "Printer._http._tcp.local",
             data := RData.srv 0 0 631 "printer1.local" }] } = [] :=
  handle_response_query_noop "Printer._http._tcp.local" 0 []
    { query := true,
      answers :=
        [{ name := "Printer._http._tcp.local",
           data := RData.srv 0 0 631 "printer1.local" }] } rfl

/-- C5: any key present after processing a packet was either already present
or is derived from some SRV answer whose name contains the target service
name; in particular an SRV answer whose name does not match (under the
implemented substring policy) never creates a registry entry. -/
theorem new_key_from_matching_srv (service : String) (now : Nat) (db : Registry)
    (p : Packet) (k : Service)
    (h : hasKey (handle_response service now db p) k = true) :
    hasKey db k = true ∨ p.answers.any (answerDerives service k) = true :=
  hasKey_handle_response service now db p k h

/-- Witness for C5: the key created from a matching SRV answer is accounted
for by the second disjunct. -/
theorem new_key_from_matching_srv_witness :
    hasKey ([] : Registry) ⟨"printer1.local", 631⟩ = true ∨
      ([{ name := "Printer._http._tcp.local",
          data := RData.srv 0 0 631 "printer1.local" }] :
        List ResourceRecord).any
        (answerDerives "Printer._http._tcp.local" ⟨"printer1.local", 631⟩) = true :=
  new_key_from_matching_srv "Printer._http._tcp.local" 7 []
    { query := false,
      answers :=
        [{ name := "Printer._http._tcp.local",
           data := RData.srv 0 0 631 "printer1.local" }] }
    ⟨"printer1.local", 631⟩ (by rfl)

/-- C6: an A answer whose name equals no existing entry's host, and whose
name no matching SRV answer of the same packet introduces as a host, leaves
the registry unchanged by that answer: processing the packet gives exactly
the same registry as processing the packet with that A answer removed — so
an A record alone creates no entry and modifies no address set, even when
other (SRV) answers of the packet do act. -/
theorem unmatched_a_answer_noop (service : String) (now : Nat) (db : Registry)
    (q : Bool) (l1 l2 : List ResourceRecord) (a : ResourceRecord) (addr : Ipv4)
    (hA : a.data = RData.a addr)
    (hname : ∀ e ∈ db, e.1.host ≠ a.name)
    (hsrv : ∀ a2 ∈ l1 ++ a :: l2, ∀ pr w port target,
      a2.data = RData.srv pr w port target →
      strContains a2.name service = true → target ≠ a.name) :
    handle_response service now db ⟨q, l1 ++ a :: l2⟩ =
      handle_response service now db ⟨q, l1 ++ l2⟩ := by
  have h1 : List.foldl (srvStep service now) db (l1 ++ a :: l2) =
      List.foldl (srvStep service now) db (l1 ++ l2) := by
    rw [List.foldl_append, List.foldl_append, List.foldl_cons,
      srvStep_of_a service now _ a addr hA]
  have hP : ∀ e ∈ List.foldl (srvStep service now) db (l1 ++ l2),
      e.1.host ≠ a.name :=
    hosts_ne_srvFold service a.name now (l1 ++ l2) db hname
      (fun x hx => hsrv x (by
        rcases List.mem_append.mp hx with h | h
        · exact List.mem_append.mpr (Or.inl h)
        · exact List.mem_append.mpr (Or.inr (List.mem_cons_of_mem _ h))))
  have h2 : aStep
      (List.foldl aStep (List.foldl (srvStep service now) db (l1 ++ l2)) l1) a =
      List.foldl aStep (List.foldl (srvStep service now) db (l1 ++ l2)) l1 :=
    aStep_noop _ a (hosts_ne_aFold a.name l1 _ hP)
  cases q with
  | true => rfl
  | false =>
      show List.foldl aStep
          (List.foldl (srvStep service now) db (l1 ++ a :: l2)) (l1 ++ a :: l2) =
        List.foldl aStep
          (List.foldl (srvStep service now) db (l1 ++ l2)) (l1 ++ l2)
      rw [h1, List.foldl_append, List.foldl_cons, h2, ← List.foldl_append]

/-- Witness for C6: in a packet that also carries a matching SRV answer, an
A answer naming an unrelated host contributes nothing to the result. -/
theorem unmatched_a_answer_noop_witness :
    handle_response "Printer._http._tcp.local" 0 []
      { query := false,
        answers :=
          [{ name := "Printer._http._tcp.local",
             data := RData.srv 0 0 631 "printer1.local" },
           { name := "otherhost.local", data := RData.a ⟨10, 0, 0, 7⟩ }] } =
      handle_response "Printer._http._tcp.local" 0 []
        { query := false,
          answers :=
            [{ name := "Printer._http._tcp.local",
               data := RData.srv 0 0 631 "printer1.local" }] } :=
  unmatched_a_answer_noop "Printer._http._tcp.local" 0 [] false
    [{ name := "Printer._http._tcp.local",
       data := RData.srv 0 0 631 "printer1.local" }]
    [] { name := "otherhost.local", data := RData.a ⟨10, 0, 0, 7⟩ }
    ⟨10, 0, 0, 7⟩ rfl (by decide)
    (by
      intro a2 ha2 pr w port target hdata hmatch
      rcases List.mem_append.mp ha2 with h | h
      · rw [List.mem_singleton.mp h] at hdata
        have hdata2 : RData.srv 0 0 631 "printer1.local" =
            RData.srv pr w port target := hdata
        injection hdata2 with h1 h2 h3 h4
        rw [← h4]
        decide
      · rw [List.mem_singleton.mp h] at hdata
        have hdata2 : RData.a ⟨10, 0, 0, 7⟩ =
            RData.srv pr w port target := hdata
        exact absurd hdata2 (by simp))

/-- C9: over any run of polling cycles in which every cycle upserts the key
`k` (a matching SRV response processed that cycle) and every response of a
cycle is processed less than 5 seconds before that cycle's eviction pass
(cycle interval below the TTL), the key is present in the registry after
every cycle's eviction pass. -/
theorem refreshed_service_never_evicted (service : String) (k : Service) :
    ∀ (cs : List Cycle) (db : Registry), cs ≠ [] →
      (∀ c ∈ cs, (∀ e ∈ c.events, c.evict_time < e.1 + 5) ∧
        ∃ e ∈ c.events, packetUpserts service k e.2 = true) →
      hasKey (runCycles service db cs) k = true := by
  intro cs
  induction cs with
  | nil => intro db hne _; exact absurd rfl hne
  | cons c rest ih =>
      intro db _ h
      cases rest with
      | nil =>
          unfold runCycles
          rw [List.foldl_cons, List.foldl_nil]
          exact runCycle_keeps service k db c (h c (List.mem_cons_self _ _)).1
            (h c (List.mem_cons_self _ _)).2
      | cons c2 rest2 =>
          unfold runCycles
          rw [List.foldl_cons]
          exact ih (runCycle service db c) (List.cons_ne_nil _ _)
            (fun x hx => h x (List.mem_cons_of_mem _ hx))

/-- Witness for C9: one cycle that processes a matching SRV response at time 0
and evicts at time 4 keeps the service. -/
theorem refreshed_service_never_evicted_witness :
    hasKey
      (runCycles "Printer._http._tcp.local" []
        [⟨[(0, { query := false,
                 answers :=
                   [{ name := "Printer._http._tcp.local",
                      data := RData.srv 0 0 631 "printer1.local" }] })], 4⟩])
      ⟨"printer1.local", 631⟩ = true :=
  refreshed_service_never_evicted "Printer._http._tcp.local"
    ⟨"printer1.local", 631⟩
    [⟨[(0, { query := false,
             answers :=
               [{ name := "Printer._http._tcp.local",
                  data := RData.srv 0 0 631 "printer1.local" }] })], 4⟩]
    [] (List.cons_ne_nil _ _) (by decide)

/-- C10: refreshing an existing key updates only that entry's
`last_seen_time` — its address set is preserved — and every other key's
entry is left exactly as it was. -/
theorem upsert_refresh_frame (now : Nat) (db : Registry) (k : Service)
    (r : ServiceRecord) (h : findKey db k = some r) :
    findKey (upsertService now db k) k = some ⟨now, r.addresses⟩ ∧
    ∀ k2, k2 ≠ k → findKey (upsertService now db k) k2 = findKey db k2 := by
  constructor
  · rw [findKey_upsert_self, h]
    rfl
  · exact fun k2 hne => findKey_upsert_other now db k k2 hne

/-- Witness for C10 on a two-entry registry: the refreshed entry keeps its
address set, and the untouched key is unchanged. -/
theorem upsert_refresh_frame_witness :
    findKey
      (upsertService 7 [(⟨"h1", 1⟩, ⟨1, [⟨10, 0, 0, 1⟩]⟩), (⟨"h2", 2⟩, ⟨2, []⟩)]
        ⟨"h1", 1⟩) ⟨"h1", 1⟩ = some ⟨7, [⟨10, 0, 0, 1⟩]⟩ ∧
    ∀ k2, k2 ≠ (⟨"h1", 1⟩ : Service) →
      findKey
        (upsertService 7 [(⟨"h1", 1⟩, ⟨1, [⟨10, 0, 0, 1⟩]⟩), (⟨"h2", 2⟩, ⟨2, []⟩)]
          ⟨"h1", 1⟩) k2 =
      findKey [(⟨"h1", 1⟩, ⟨1, [⟨10, 0, 0, 1⟩]⟩), (⟨"h2", 2⟩, ⟨2, []⟩)] k2 :=
  upsert_refresh_frame 7 [(⟨"h1", 1⟩, ⟨1, [⟨10, 0, 0, 1⟩]⟩), (⟨"h2", 2⟩, ⟨2, []⟩)]
    ⟨"h1", 1⟩ ⟨1, [⟨10, 0, 0, 1⟩]⟩ (by rfl)

theorem map_congr_mem {α β : Type} (f g : α → β) (l : List α)
    (h : ∀ e ∈ l, f e = g e) : l.map f = l.map g := by
  induction l with
  | nil => rfl
  | cons e t ih =>
      rw [List.map_cons, List.map_cons, h e (List.mem_cons_self _ _),
        ih (fun x hx => h x (List.mem_cons_of_mem _ hx))]

theorem encFold :
    ∀ (parts : List (List Nat)) (acc : List Nat),
      parts.foldl (fun bytes part => bytes ++ (part.length % 256) :: part) acc =
        acc ++ (parts.map (fun part => (part.length % 256) :: part)).flatten := by
  intro parts
  induction parts with
  | nil => intro acc; simp
  | cons p rest ih =>
      intro acc
      rw [List.foldl_cons, ih, List.map_cons, List.flatten_cons, List.append_assoc]

/-- C7 (amended): for a name each of whose dot-separated labels is at most 63
bytes long, the encoder emits, for each label, a length byte equal to that
label's true length (hence within 0–63) followed by the label's bytes, and
terminates the name with a single zero byte. (Without the bound the length
byte is the label length reduced mod 256; the 0–63 range is not enforced.) -/
theorem encode_dns_name_labels_le63 (name : String)
    (h : ∀ part ∈ splitDot (strBytes name), part.length ≤ 63) :
    encode_dns_name name =
      ((splitDot (strBytes name)).map (fun part => part.length :: part)).flatten
        ++ [0] := by
  unfold encode_dns_name
  rw [encFold, List.nil_append,
    map_congr_mem _ (fun part => part.length :: part) _
      (fun p hp => by rw [Nat.mod_eq_of_lt (by have := h p hp; omega)])]

/-- Witness for C7: the encoding of `printer1.local` is the 8-byte label
`printer1`, the 5-byte label `local`, and the terminating zero byte. -/
theorem encode_dns_name_labels_le63_witness :
    encode_dns_name "printer1.local" =
      [8, 112, 114, 105, 110, 116, 101, 114, 49, 5, 108, 111, 99, 97, 108, 0] :=
  (encode_dns_name_labels_le63 "printer1.local" (by decide)).trans (by decide)

/-- Counterexample for C7 as stated: for a name whose single label is 64
bytes long, the emitted length byte (64) is not in the range 0–63, so it is
not the case that every label's length byte is its length and lies in 0–63. -/
theorem encode_dns_name_claim_false :
    ¬ (encode_dns_name
        "aaaaaaaaaaaaaaaaaaaaaaaaaaaaaaaaaaaaaaaaaaaaaaaaaaaaaaaaaaaaaaaa" =
        ((splitDot (strBytes
            "aaaaaaaaaaaaaaaaaaaaaaaaaaaaaaaaaaaaaaaaaaaaaaaaaaaaaaaaaaaaaaaa")).map
          (fun part => part.length :: part)).flatten ++ [0] ∧
       ∀ part ∈ splitDot (strBytes
          "aaaaaaaaaaaaaaaaaaaaaaaaaaaaaaaaaaaaaaaaaaaaaaaaaaaaaaaaaaaaaaaa"),
         part.length ≤ 63) := by
  decide

theorem getD_append_right (l₁ l₂ : List Nat) (i : Nat) :
    (l₁ ++ l₂).getD (l₁.length + i) 0 = l₂.getD i 0 := by
  induction l₁ with
  | nil => simp
  | cons a l ih =>
      have h : l.length + 1 + i = (l.length + i) + 1 := by omega
      simp only [List.cons_append, List.length_cons, h, List.getD_cons_succ]
      exact ih

theorem query_packet_eq (s : String) :
    query_packet s =
      [0, 0, 0, 0, 0, 1, 0, 0, 0, 0, 0, 0] ++ encode_dns_name s ++
        [0, 12, 0, 1] := by
  unfold query_packet DnsHeader.to_bytes DnsHeader.new_query u16be
  simp

theorem decode_tail (s : String) (j : Nat) :
    (query_packet s).getD (12 + (encode_dns_name s).length + j) 0 =
      [0, 12, 0, 1].getD j 0 := by
  rw [query_packet_eq]
  have h2 : 12 + (encode_dns_name s).length + j =
      (([0, 0, 0, 0, 0, 1, 0, 0, 0, 0, 0, 0] : List Nat) ++
        encode_dns_name s).length + j := by
    simp only [List.length_append, List.length_cons, List.length_nil]
  rw [h2, getD_append_right]

/-- C8: for every target service name, the query datagram's header declares
transaction id 0, exactly one question and zero answers, authorities and
additionals; the question's type field is PTR (12) and its class field is
IN (1), whose top bit — the unicast-response-preferred (QU) bit — is unset. -/
theorem query_packet_header_fields (s : String) :
    decodeU16 (query_packet s) 0 = 0 ∧
    decodeU16 (query_packet s) 4 = 1 ∧
    decodeU16 (query_packet s) 6 = 0 ∧
    decodeU16 (query_packet s) 8 = 0 ∧
    decodeU16 (query_packet s) 10 = 0 ∧
    decodeU16 (query_packet s) (12 + (encode_dns_name s).length) = 12 ∧
    decodeU16 (query_packet s) (12 + (encode_dns_name s).length + 2) = 1 ∧
    Nat.testBit
      (decodeU16 (query_packet s) (12 + (encode_dns_name s).length + 2)) 15 =
      false := by
  have t0 : (query_packet s).getD (12 + (encode_dns_name s).length) 0 = 0 := by
    have := decode_tail s 0
    simpa using this
  have t1 : (query_packet s).getD (12 + (encode_dns_name s).length + 1) 0 = 12 := by
    simpa using decode_tail s 1
  have t2 : (query_packet s).getD (12 + (encode_dns_name s).length + 2) 0 = 0 := by
    simpa using decode_tail s 2
  have t3 : (query_packet s).getD (12 + (encode_dns_name s).length + 2 + 1) 0 = 1 := by
    have h : 12 + (encode_dns_name s).length + 2 + 1 =
        12 + (encode_dns_name s).length + 3 := by omega
    rw [h]
    simpa using decode_tail s 3
  refine ⟨?_, ?_, ?_, ?_, ?_, ?_, ?_, ?_⟩
  · rw [query_packet_eq]; rfl
  · rw [query_packet_eq]; rfl
  · rw [query_packet_eq]; rfl
  · rw [query_packet_eq]; rfl
  · rw [query_packet_eq]; rfl
  · unfold decodeU16
    rw [t0, t1]
  · unfold decodeU16
    rw [t2, t3]
  · unfold decodeU16
    rw [t2, t3]
    decide

end SimpleMdns
